import Mathlib

/-!
Verification of the range classification/partitioning engine, command construction and
validation logic of `src/lib/libnmap.js`.

Strings are modelled as `List Char`.  The cascading regular-expression tests of the
`validation.net` object are embedded through a small Brzozowski-derivative matcher (`RE`),
into which each pattern of the source is transliterated construct by construct.
JavaScript `RegExp.test` searches for a match anywhere in the string, so a pattern
anchored on both sides (`^...$`) becomes a full match (`reMatch`), a pattern anchored
only at the start becomes a match of some prefix (`reMatchStart`), and an unanchored
pattern becomes a match of some substring (`reSearch`).
-/

/-- Regular expressions over characters; `ch p` matches one character satisfying `p`. -/
inductive RE where
  | void
  | eps
  | ch (p : Char → Bool)
  | seq (a b : RE)
  | alt (a b : RE)
  | star (a : RE)

/-- Smart sequencing constructor, keeping derivatives small. -/
def mkSeq : RE → RE → RE
  | .void, _ => .void
  | _, .void => .void
  | .eps, b => b
  | a, .eps => a
  | a, b => .seq a b

/-- Smart alternation constructor, keeping derivatives small. -/
def mkAlt : RE → RE → RE
  | .void, b => b
  | a, .void => a
  | a, b => .alt a b

/-- Does the expression accept the empty word? -/
def RE.nullable : RE → Bool
  | .void => false
  | .eps => true
  | .ch _ => false
  | .seq a b => a.nullable && b.nullable
  | .alt a b => a.nullable || b.nullable
  | .star _ => true

/-- Brzozowski derivative of an expression by one character. -/
def RE.deriv : RE → Char → RE
  | .void, _ => .void
  | .eps, _ => .void
  | .ch p, c => if p c then .eps else .void
  | .seq a b, c =>
      if a.nullable then mkAlt (mkSeq (a.deriv c) b) (b.deriv c)
      else mkSeq (a.deriv c) b
  | .alt a b, c => mkAlt (a.deriv c) (b.deriv c)
  | .star a, c => mkSeq (a.deriv c) (.star a)

/-- Whole-string match: the embedding of a `^...$`-anchored `RegExp.test`. -/
def reMatch (r : RE) (l : List Char) : Bool :=
  (l.foldl RE.deriv r).nullable

/-- Match of some prefix of the string: the embedding of a `^...`-anchored `RegExp.test`. -/
def reMatchStart (r : RE) : List Char → Bool
  | [] => r.nullable
  | c :: rest => r.nullable || reMatchStart (r.deriv c) rest

/-- Match of some substring: the embedding of an unanchored `RegExp.test`. -/
def reSearch (r : RE) : List Char → Bool
  | [] => reMatchStart r []
  | c :: rest => reMatchStart r (c :: rest) || reSearch r rest

/-- Single-character expression. -/
def chC (c : Char) : RE := .ch (fun x => x = c)

/-- Character-range expression, e.g. `[0-9]`. -/
def rng (a b : Char) : RE := .ch (fun x => a ≤ x && x ≤ b)

/-- The `(...)?` construct. -/
def reOpt (r : RE) : RE := .alt r .eps

/-- The `(...)+` construct. -/
def rePlus (r : RE) : RE := .seq r (.star r)

/-- The `(...){n}` construct. -/
def repExact (r : RE) : Nat → RE
  | 0 => .eps
  | n + 1 => .seq r (repExact r n)

/-- Up to `n` repetitions, each optional. -/
def repUpTo (r : RE) : Nat → RE
  | 0 => .eps
  | n + 1 => .seq (reOpt r) (repUpTo r n)

/-- The `(...){lo,hi}` construct. -/
def repRange (r : RE) (lo hi : Nat) : RE := .seq (repExact r lo) (repUpTo r (hi - lo))

/-- The class `[0-9]`. -/
def reDigit : RE := rng '0' '9'

/-- The class `[a-zA-Z]`. -/
def reAlpha : RE := .alt (rng 'a' 'z') (rng 'A' 'Z')

/-- The class `[0-9A-Fa-f]`. -/
def reHex : RE := .alt (rng '0' '9') (.alt (rng 'A' 'F') (rng 'a' 'f'))

/-- A literal `:`. -/
def reColon : RE := chC ':'

/-- A literal `.` (escaped `\.` in the patterns). -/
def reDot : RE := chC '.'

/-- The class `\s` restricted to the ASCII whitespace characters; every string these
patterns are applied to in this development is ASCII, so the unicode spaces JavaScript
additionally includes never arise. -/
def reWs : RE :=
  .ch (fun c => c = ' ' || c = '\t' || c = '\n' || c = '\r' || c = '\x0b' || c = '\x0c')

/-- The `.` wildcard of JavaScript, matching anything but a line terminator (the
astral-plane terminators U+2028/U+2029 are irrelevant to the ASCII strings used here). -/
def reAny : RE := .ch (fun c => !(c = '\n' || c = '\r'))

/-- Transliteration of `([0-9]|[1-9][0-9]|1[0-9]{2}|2[0-4][0-9]|25[0-5])`, the octet
pattern shared by `validation.net.IPv4`, `.IPv4CIDR` and `.IPv4Range` (src lines 516-528). -/
def octetRE : RE :=
  .alt reDigit
    (.alt (.seq (rng '1' '9') reDigit)
      (.alt (.seq (chC '1') (.seq reDigit reDigit))
        (.alt (.seq (chC '2') (.seq (rng '0' '4') reDigit))
          (.seq (chC '2') (.seq (chC '5') (rng '0' '5'))))))

/-- Body of `validation.net.IPv4` (src line 516): `(octet\.){3}octet`, anchored `^...$`. -/
def ipv4RE : RE := .seq (repExact (.seq octetRE reDot) 3) octetRE

/-- `validation.net.IPv4` test: the pattern is anchored on both sides. -/
def ipv4Test (l : List Char) : Bool := reMatch ipv4RE l

/-- The prefix-length part `(\/([1-2]\d|3[0-2]|\d))` of `validation.net.IPv4CIDR`
(src line 522). -/
def cidr4Sfx : RE :=
  .seq (chC '/')
    (.alt (.seq (rng '1' '2') reDigit)
      (.alt (.seq (chC '3') (rng '0' '2')) reDigit))

/-- Body of `validation.net.IPv4CIDR` (src line 522): `(octet\.){3}octet(\/...)`. -/
def ipv4CIDRRE : RE := .seq ipv4RE cidr4Sfx

/-- `validation.net.IPv4CIDR` test: the source pattern carries no anchors, so
`RegExp.test` succeeds on any string containing a matching substring. -/
def ipv4CIDRTest (l : List Char) : Bool := reSearch ipv4CIDRRE l

/-- Body of `validation.net.IPv4Range` (src line 528): `(octet\.){3}octet\-octet`,
anchored `^...$`. -/
def ipv4RangeRE : RE :=
  .seq (repExact (.seq octetRE reDot) 3) (.seq octetRE (.seq (chC '-') octetRE))

/-- `validation.net.IPv4Range` test. -/
def ipv4RangeTest (l : List Char) : Bool := reMatch ipv4RangeRE l

/-- Transliteration of `([a-zA-Z]|[a-zA-Z][a-zA-Z0-9\-]*[a-zA-Z0-9])`, the label of
`validation.net.hostname` (src line 510); the final label uses the same classes. -/
def labelRE : RE :=
  .alt reAlpha (.seq reAlpha (.seq (.star (.alt reAlpha (.alt reDigit (chC '-')))) reAlpha))

/-- First alternative of `validation.net.hostname`: `^(label\.)*label`, anchored only at
the start. -/
def hostnameRE : RE := .seq (.star (.seq labelRE reDot)) labelRE

/-- `validation.net.hostname` test (src line 510).  The pattern is
`^(label\.)*label|localhost$`: the alternation splits at top level, so the first
alternative is anchored only at the start and the second (`localhost$`) only at the end. -/
def hostnameTest (l : List Char) : Bool :=
  reMatchStart hostnameRE l || List.isSuffixOf ((r"localhost").toList) l

/-- Transliteration of `(25[0-5]|2[0-4]\d|1\d\d|[1-9]?\d)`, the decimal-octet pattern
embedded in `validation.net.IPv6` and `.IPv6CIDR` (src lines 534, 540). -/
def d25RE : RE :=
  .alt (.seq (chC '2') (.seq (chC '5') (rng '0' '5')))
    (.alt (.seq (chC '2') (.seq (rng '0' '4') reDigit))
      (.alt (.seq (chC '1') (.seq reDigit reDigit))
        (.seq (reOpt (rng '1' '9')) reDigit)))

/-- The embedded dotted-quad `(d25)(\.(d25)){3}` of the IPv6 patterns. -/
def v4in6 : RE := .seq d25RE (repExact (.seq reDot d25RE) 3)

/-- The group `[0-9A-Fa-f]{1,4}` of the IPv6 patterns. -/
def h16 : RE := repRange reHex 1 4

/-- The unit `[0-9A-Fa-f]{1,4}:` of the IPv6 patterns. -/
def h16c : RE := .seq h16 reColon

/-- The unit `:[0-9A-Fa-f]{1,4}` of the IPv6 patterns. -/
def ch16 : RE := .seq reColon h16

/-- Alternative 1 of the IPv6 body: `([0-9A-Fa-f]{1,4}:){7}([0-9A-Fa-f]{1,4}|:)`. -/
def v6alt1 : RE := .seq (repExact h16c 7) (.alt h16 reColon)

/-- Alternative 2: `(h:){6}(:h|v4|:)`. -/
def v6alt2 : RE := .seq (repExact h16c 6) (.alt ch16 (.alt v4in6 reColon))

/-- Alternative 3: `(h:){5}((:h){1,2}|:v4|:)`. -/
def v6alt3 : RE :=
  .seq (repExact h16c 5) (.alt (repRange ch16 1 2) (.alt (.seq reColon v4in6) reColon))

/-- Alternative 4: `(h:){4}((:h){1,3}|(:h)?:v4|:)`. -/
def v6alt4 : RE :=
  .seq (repExact h16c 4)
    (.alt (repRange ch16 1 3) (.alt (.seq (reOpt ch16) (.seq reColon v4in6)) reColon))

/-- Alternative 5: `(h:){3}((:h){1,4}|(:h){0,2}:v4|:)`. -/
def v6alt5 : RE :=
  .seq (repExact h16c 3)
    (.alt (repRange ch16 1 4) (.alt (.seq (repRange ch16 0 2) (.seq reColon v4in6)) reColon))

/-- Alternative 6: `(h:){2}((:h){1,5}|(:h){0,3}:v4|:)`. -/
def v6alt6 : RE :=
  .seq (repExact h16c 2)
    (.alt (repRange ch16 1 5) (.alt (.seq (repRange ch16 0 3) (.seq reColon v4in6)) reColon))

/-- Alternative 7: `(h:){1}((:h){1,6}|(:h){0,4}:v4|:)`. -/
def v6alt7 : RE :=
  .seq (repExact h16c 1)
    (.alt (repRange ch16 1 6) (.alt (.seq (repRange ch16 0 4) (.seq reColon v4in6)) reColon))

/-- Alternative 8: `:((:h){1,7}|(:h){0,5}:v4|:)`. -/
def v6alt8 : RE :=
  .seq reColon
    (.alt (repRange ch16 1 7) (.alt (.seq (repRange ch16 0 5) (.seq reColon v4in6)) reColon))

/-- The full eight-way alternation at the heart of `validation.net.IPv6` and
`.IPv6CIDR` (src lines 534, 540). -/
def v6main : RE :=
  .alt v6alt1
    (.alt v6alt2 (.alt v6alt3 (.alt v6alt4 (.alt v6alt5 (.alt v6alt6 (.alt v6alt7 v6alt8))))))

/-- The optional zone suffix `(%.+)?` of the IPv6 patterns. -/
def zoneOpt : RE := reOpt (.seq (chC '%') (rePlus reAny))

/-- Body of `validation.net.IPv6` (src line 534): `\s*(v6main)(%.+)?\s*`, preceded in the
source by `^` but with no `$`. -/
def ipv6Body : RE := .seq (.star reWs) (.seq v6main (.seq zoneOpt (.star reWs)))

/-- `validation.net.IPv6` test: anchored only at the start, so it succeeds whenever some
prefix of the string matches the body. -/
def ipv6Test (l : List Char) : Bool := reMatchStart ipv6Body l

/-- The prefix-length part `(\/(\d|\d\d|1[0-1]\d|12[0-8]))` of `validation.net.IPv6CIDR`
(src line 540). -/
def cidr6Sfx : RE :=
  .seq (chC '/')
    (.alt reDigit
      (.alt (.seq reDigit reDigit)
        (.alt (.seq (chC '1') (.seq (rng '0' '1') reDigit))
          (.seq (chC '1') (.seq (chC '2') (rng '0' '8'))))))

/-- `validation.net.IPv6CIDR` test (src line 540): `^\s*(v6main)(%.+)?\s*(\/...)$`,
anchored on both sides. -/
def ipv6CIDRTest (l : List Char) : Bool := reMatch (.seq ipv6Body cidr6Sfx) l

/-- Decimal-digit test used by the port-grammar matcher. -/
def isDig (c : Char) : Bool := '0' ≤ c && c ≤ '9'

/-- Transliteration of the port-number alternation of `validation.net.ports`
(src line 504): `[1-9][0-9]{0,3}|[1-5][0-9]{4}|6(?:[0-4][0-9]{3}|5(?:[0-4][0-9]{2}|5(?:[0-2][0-9]|3[0-5])))`. -/
def isPortNum (l : List Char) : Bool :=
  (match l with
   | a :: rest => ('1' ≤ a && a ≤ '9') && rest.length ≤ 3 && rest.all isDig
   | [] => false)
  ||
  (match l with
   | [a, b, c, d, e] =>
       (('1' ≤ a && a ≤ '5') && [b, c, d, e].all isDig)
       || (a = '6' && ('0' ≤ b && b ≤ '4') && [c, d, e].all isDig)
       || (a = '6' && b = '5' && ('0' ≤ c && c ≤ '4') && [d, e].all isDig)
       || (a = '6' && b = '5' && c = '5' && ('0' ≤ d && d ≤ '2') && isDig e)
       || (a = '6' && b = '5' && c = '5' && d = '3' && ('0' ≤ e && e ≤ '5'))
   | _ => false)

/-- Matcher for `port([-,]port)*` against the whole remaining string: one port number
(the alternation only accepts one to five characters, so all five candidate token lengths
are tried) followed by separator-port groups until the end.  The structural `fuel`
argument only needs to dominate the string length (each recursive call strips at least
two characters); `portsMatch` below instantiates it accordingly. -/
def portsGo (fuel : Nat) (l : List Char) : Bool :=
  match fuel with
  | 0 => false
  | f + 1 =>
      (List.range 5).any fun i =>
        isPortNum (l.take (i + 1)) &&
          (match l.drop (i + 1) with
           | [] => true
           | c :: rest => (c = '-' || c = ',') && portsGo f rest)

/-- Matcher for `port([-,]port)*` against the whole string. -/
def portsMatch (l : List Char) : Bool := portsGo (l.length + 1) l

/-- `validation.net.ports` test (src line 504): the pattern is
`^(?:(?:^|[-,])port)+$`.  The inner `^` can only succeed at position zero, i.e. in the
first repetition, so the pattern accepts exactly an optional leading `-` or `,` followed
by ports separated by single `-` or `,` characters. -/
def portsTest (l : List Char) : Bool :=
  portsMatch l ||
    (match l with
     | c :: rest => (c = '-' || c = ',') && portsMatch rest
     | [] => false)

/-- Rounding of an exact non-negative quotient `num / den` as JavaScript `Math.round`
does it (half away from zero): `⌊num / den + 1/2⌋`.  The quotients rounded in
`network.range` (src lines 390, 395) are ratios of an address count and a block size,
which are exact in double precision for every realistic CIDR. -/
def jsRound (num den : Nat) : Nat := (2 * num + den) / (2 * den)

/-- The slicing loop of `tools.chunk` (src lines 201-211): successive
`obj.slice(idx, idx + offset)` groups for `idx = 0, offset, 2*offset, ...`.  The loop
steps by the positive offset it is invoked with (`network.range` only calls it with an
offset greater than one).  The structural `fuel` argument only needs to dominate the
list length (each recursive call strips at least one element); `chunkSlices` below
instantiates it accordingly. -/
def chunkGo (fuel : Nat) (l : List α) (offset : Nat) : List (List α) :=
  match fuel, l with
  | _, [] => []
  | 0, _ => []
  | f + 1, x :: xs => (x :: xs.take (offset - 1)) :: chunkGo f (xs.drop (offset - 1)) offset

/-- The slice list produced by the loop of `tools.chunk`. -/
def chunkSlices (l : List α) (offset : Nat) : List (List α) := chunkGo l.length l offset

/-- `tools.chunk` (src lines 201-211): each slice is rendered with `.join(' ')`. -/
def chunk (obj : List (List Char)) (offset : Nat) : List (List Char) :=
  (chunkSlices obj offset).map (List.intercalate [' '])

/-- The rescale step of `network.range` (src line 395):
`splitat = (splitat > 256) ? Math.round(splitat / 255) : splitat`. -/
def rescale (g : Nat) : Nat := if 256 < g then jsRound g 255 else g

/-- `network.range` (src lines 388-409), parametrised by the full address enumeration
`blocks` that the external collaborator `cidr.list(host)` returns for the CIDR:
`splitat = Math.round(blocks.length / opts.blocksize)` is rescaled, then used as the
chunking offset when greater than one, and otherwise the whole enumeration is joined
into a single block. -/
def netRange (blocksize : Nat) (blocks : List (List Char)) : List (List Char) :=
  let splitat := rescale (jsRound blocks.length blocksize)
  if 1 < splitat then chunk blocks splitat
  else [List.intercalate [' '] blocks]

/-- Dotted-quad rendering of a 32-bit address value, as the decimal text of its four
octets. -/
def ipv4Render (n : Nat) : List Char :=
  Nat.toDigits 10 (n / 16777216 % 256) ++ '.' :: Nat.toDigits 10 (n / 65536 % 256)
    ++ '.' :: Nat.toDigits 10 (n / 256 % 256) ++ '.' :: Nat.toDigits 10 (n % 256)

/-- Modelled from the spec: the CIDR expansion collaborator (the external `cidr-js`
library's `list`) is not part of this repository.  Per spec §4.2 and the §8 example
(a `/30` enumerates exactly its two host addresses, network and broadcast excluded),
`specEnum base p` enumerates the addresses `base + 1` to `base + 2^(32-p) - 2` of the
CIDR `base/p`. -/
def specEnum (base p : Nat) : List (List Char) :=
  (List.range (2 ^ (32 - p) - 2)).map (fun i => ipv4Render (base + 1 + i))

/-- Modelled from the spec: the concrete enumeration map used to instantiate the
external CIDR collaborator in the concrete theorems below; it binds the two example
CIDR strings to their `specEnum` expansions. -/
def specEnumMap (host : List Char) : List (List Char) :=
  if host = (r"10.0.0.0/30").toList then specEnum 167772160 30
  else if host = (r"10.0.1.0/30").toList then specEnum 167772416 30
  else []

/-- The scan options consumed by validation, classification and command construction.
`discoverMode` models `/discover/.test(opts.called)`, i.e. whether the public entry
point was `discover` rather than `scan`. -/
structure Opts where
  nmap : List Char
  ports : List Char
  range : List (List Char)
  timeout : Nat
  blocksize : Nat
  udp : Bool
  flags : List (List Char)
  discoverMode : Bool

/-- The error kinds `validation.init` can collect (src lines 481-491): the binary-path,
block-size, empty-range, per-host and port-specification errors. -/
inductive VError where
  | pathErr
  | blockErr
  | rangeErr
  | hostErr (host : List Char)
  | portErr
deriving DecidableEq

/-- `validation.verify` (src lines 599-610): a range entry passes when any of the six
patterns matches, in the order tested by the source. -/
def verifyOk (host : List Char) : Bool :=
  hostnameTest host || ipv4Test host || ipv6Test host ||
    ipv4CIDRTest host || ipv6CIDRTest host || ipv4RangeTest host

/-- The error list `validation.init` (src lines 550-588) accumulates, in push order.

`existsResult` is the boolean the external `hasbin` collaborator returns for
`opts.nmap`.  It contributes nothing: `validation.exists` (src lines 633-635) takes only
the path and returns that boolean, while `init` (src line 554) passes it a second,
callback argument that is never invoked, so neither the `pathErr` push nor the
`fs.access` fallback inside that callback is reachable.

The range checks run only outside discover mode.  `opts.range` is modelled as a list,
so of the emptiness test `(!opts.range) || (!/array|object/.test(typeof(opts.range))) ||
(opts.range.length === 0)` only the length clause can fire, and the per-entry
verification loop is guarded by `opts.range.length >= 1` (a no-op guard: iterating an
empty list pushes nothing).  The port check runs only when `opts.ports` is truthy,
i.e. non-empty. -/
def initErrors (existsResult : Bool) (o : Opts) : List VError :=
  (if 128 < o.blocksize then [VError.blockErr] else [])
    ++ (if o.discoverMode then [] else
          (if o.range.length = 0 then [VError.rangeErr] else [])
            ++ o.range.filterMap
                (fun v => if verifyOk v then none else some (VError.hostErr v)))
    ++ (if o.ports ≠ [] then (if portsTest o.ports then [] else [VError.portErr]) else [])

/-- The completion of `validation.init` (src line 587): the callback receives the error
list when it is non-empty and `(null, true)` otherwise. -/
def initResult (existsResult : Bool) (o : Opts) : Except (List VError) Bool :=
  if initErrors existsResult o = [] then .ok true else .error (initErrors existsResult o)

/-- One step of the `switch (true)` classification loop of `network.calculate`
(src lines 425-464): the accumulator pairs the `results` list of pass-through entries
with the `tresults` list of per-CIDR partition outputs, and the cases are tried in
source order (single host, IPv4 CIDR, IPv4 range, IPv6 CIDR, silently-discarded
default). -/
def calcStep (enum : List Char → List (List Char)) (bsize : Nat)
    (acc : List (List Char) × List (List (List Char))) (host : List Char) :
    List (List Char) × List (List (List Char)) :=
  if hostnameTest host || ipv4Test host || ipv6Test host then (acc.1 ++ [host], acc.2)
  else if ipv4CIDRTest host then (acc.1, acc.2 ++ [netRange bsize (enum host)])
  else if ipv4RangeTest host then (acc.1 ++ [host], acc.2)
  else if ipv6CIDRTest host then (acc.1 ++ [host], acc.2)
  else acc

/-- `network.calculate` (src lines 419-471), parametrised by the external CIDR
enumeration collaborator `enum` used by `network.range`.  After the loop, the source
merges `results` with `tresults[0]` only — and only when `tresults` is non-empty — via
`tools.merge`, whose `deepmerge` of two arrays concatenates them. -/
def calculate (enum : List Char → List (List Char)) (bsize : Nat)
    (range : List (List Char)) : List (List Char) :=
  let acc := range.foldl (calcStep enum bsize) ([], [])
  match acc.2 with
  | [] => acc.1
  | t0 :: _ => acc.1 ++ t0

/-- Classification outcome used to characterise `calculate`: entries emitted unchanged
by the cascade (single hosts, IPv4 ranges and IPv6 CIDRs, each reached only when the
earlier cases failed). -/
def entryKept (host : List Char) : Bool :=
  (hostnameTest host || ipv4Test host || ipv6Test host) ||
    (!ipv4CIDRTest host && (ipv4RangeTest host || ipv6CIDRTest host))

/-- Classification outcome used to characterise `calculate`: entries routed to the
IPv4-CIDR partitioning case. -/
def entryCIDR (host : List Char) : Bool :=
  !(hostnameTest host || ipv4Test host || ipv6Test host) && ipv4CIDRTest host

/-- `tools.command` (src lines 349-358).  `flags.join(' ')` is the space-joined flag
list; the IPv6 flag ` -6 ` is chosen by testing the block against the IPv6 pattern, the
protocol flag ` -sU` by `opts.udp`, and the template emits
`nmap+proto ⎵ --host-timeout=<t>s ⎵ flags ipv6 [-p<ports> ]block`, the port flag being
present exactly when `opts.ports` is truthy (non-empty). -/
def command (o : Opts) (block : List Char) : List Char :=
  let flags := List.intercalate [' '] o.flags
  let ipv6 := if ipv6Test block then (r" -6 ").toList else [' ']
  let proto := if o.udp then (r" -sU").toList else [' ']
  let hostTo := (r"--host-timeout=").toList ++ Nat.toDigits 10 o.timeout ++ (r"s ").toList
  if o.ports ≠ [] then
    o.nmap ++ proto ++ [' '] ++ hostTo ++ flags ++ ipv6
      ++ (r"-p").toList ++ o.ports ++ [' '] ++ block
  else
    o.nmap ++ proto ++ [' '] ++ hostTo ++ flags ++ ipv6 ++ block

/-- Settlement outcome of one scan unit's callback. -/
inductive UnitResult where
  | callbackErr
  | callbackReport (xml : List Char)
  | noCallback
deriving DecidableEq

/-- Outcome of one scan unit built by `tools.funcs` (src lines 306-334), as a function
of whether the spawned process reported an error and of the chunks captured from its
standard output.  On a process error the `exec` callback routes the error through
`reporting.reports`, which invokes the unit callback with an `Error`; otherwise the
`end` handler of the output stream reports the captured chunks — but only under its
guard `if (report.length > 0)`, so nothing invokes the unit callback when no chunk was
captured.  `reporting.reports` joins the chunk list (`report.join('')`); the further
XML-to-JSON conversion is the external collaborator and is not modelled. -/
def unitRun (exitErr : Bool) (chunks : List (List Char)) : UnitResult :=
  if exitErr then .callbackErr
  else if 0 < chunks.length then .callbackReport chunks.flatten
  else .noCallback

/-- Modelled from the spec: the bounded worker pool of §4.5/§5.  `tools.worker`
(src lines 367-369) delegates scheduling to the external `async.parallelLimit`
collaborator, which is not part of this repository; the spec describes it as a pool in
which a pending unit may start only while fewer than `k` units are running, and a
running unit may finish at any time. -/
structure PoolState where
  pending : Nat
  running : Nat
  done : Nat
deriving DecidableEq

/-- Modelled from the spec: one scheduling transition of the bounded worker pool with
concurrency limit `k`. -/
inductive PoolStep (k : Nat) : PoolState → PoolState → Prop where
  | start (s : PoolState) : s.running < k → 0 < s.pending →
      PoolStep k s ⟨s.pending - 1, s.running + 1, s.done⟩
  | finish (s : PoolState) : 0 < s.running →
      PoolStep k s ⟨s.pending, s.running - 1, s.done + 1⟩

/-- Reflexive-transitive closure of pool scheduling steps. -/
inductive PoolReach (k : Nat) : PoolState → PoolState → Prop where
  | refl (s : PoolState) : PoolReach k s s
  | tail (s t u : PoolState) : PoolReach k s t → PoolStep k t u → PoolReach k s u

/-- Number of slices produced by the chunking loop: the ceiling `⌈length / offset⌉`,
provided the fuel dominates the list length and the offset is positive. -/
theorem chunkGo_length {α : Type} (fuel : Nat) (l : List α) (k : Nat)
    (hf : l.length ≤ fuel) (hk : 1 ≤ k) :
    (chunkGo fuel l k).length = (l.length + (k - 1)) / k := by
  induction fuel generalizing l with
  | zero =>
      have : l = [] := List.eq_nil_of_length_eq_zero (by omega)
      subst this
      simp [chunkGo, Nat.div_eq_of_lt (by omega : k - 1 < k)]
  | succ f ih =>
      cases l with
      | nil => simp [chunkGo, Nat.div_eq_of_lt (by omega : k - 1 < k)]
      | cons x xs =>
          have hxs : xs.length ≤ f := by
            simp only [List.length_cons] at hf; omega
          have hdrop : (xs.drop (k - 1)).length ≤ f := by
            simp only [List.length_drop]; omega
          simp only [chunkGo, List.length_cons, ih (xs.drop (k - 1)) hdrop,
            List.length_drop]
          rcases le_or_lt (k - 1) xs.length with h | h
          · have h1 : xs.length - (k - 1) + (k - 1) = xs.length := by omega
            have h2 : xs.length + 1 + (k - 1) = xs.length + k := by omega
            rw [h1, h2, Nat.add_div_right _ (by omega : 0 < k)]
          · have h1 : xs.length - (k - 1) + (k - 1) = k - 1 := by omega
            have h2 : xs.length + 1 + (k - 1) = xs.length + k := by omega
            rw [h1, h2, Nat.add_div_right _ (by omega : 0 < k),
              Nat.div_eq_of_lt (by omega : k - 1 < k),
              Nat.div_eq_of_lt (by omega : xs.length < k)]

/-- Concatenating the slices gives back the original list. -/
theorem chunkGo_flatten {α : Type} (fuel : Nat) (l : List α) (k : Nat)
    (hf : l.length ≤ fuel) :
    (chunkGo fuel l k).flatten = l := by
  induction fuel generalizing l with
  | zero =>
      have : l = [] := List.eq_nil_of_length_eq_zero (by omega)
      subst this
      simp [chunkGo]
  | succ f ih =>
      cases l with
      | nil => simp [chunkGo]
      | cons x xs =>
          have hdrop : (xs.drop (k - 1)).length ≤ f := by
            simp only [List.length_drop, List.length_cons] at *
            omega
          simp only [chunkGo, List.flatten_cons, ih (xs.drop (k - 1)) hdrop]
          simp [List.take_append_drop]

/-- Every slice produced by the chunking loop is non-empty. -/
theorem chunkGo_ne_nil {α : Type} (fuel : Nat) (l : List α) (k : Nat) :
    ∀ c ∈ chunkGo fuel l k, c ≠ [] := by
  induction fuel generalizing l with
  | zero =>
      cases l <;> simp [chunkGo]
  | succ f ih =>
      cases l with
      | nil => simp [chunkGo]
      | cons x xs =>
          intro c hc
          simp only [chunkGo, List.mem_cons] at hc
          rcases hc with rfl | hc
          · simp
          · exact ih _ c hc

/-- Elements of slices are elements of the original list. -/
theorem mem_of_mem_chunkSlices {α : Type} (l : List α) (k : Nat) (c : List α) (a : α)
    (hc : c ∈ chunkSlices l k) (ha : a ∈ c) : a ∈ l := by
  have := chunkGo_flatten l.length l k (Nat.le_refl _)
  rw [← this]
  exact List.mem_flatten.mpr ⟨c, hc, ha⟩

/-- C1 (amended): the number of `TargetBlock`s `network.range` produces.  The computed
group count `g = Math.round(addressCount / blocksize)`, rescaled by the `> 256` rule, is
passed to `tools.chunk` as the chunk *size*, so when `g > 1` the partition consists of
`⌈addressCount / g⌉` blocks; when `g ≤ 1` the whole enumeration becomes one block. -/
theorem claim_C1 (bsize : Nat) (blocks : List (List Char)) :
    (netRange bsize blocks).length =
      if 1 < rescale (jsRound blocks.length bsize) then
        (blocks.length + (rescale (jsRound blocks.length bsize) - 1)) /
          rescale (jsRound blocks.length bsize)
      else 1 := by
  unfold netRange chunk chunkSlices
  by_cases h : 1 < rescale (jsRound blocks.length bsize)
  · simp only [h, if_true, List.length_map]
    exact chunkGo_length _ _ _ (Nat.le_refl _) (by omega)
  · simp [h]

/-- The 14-address enumeration of the CIDR `10.0.0.16/28` (base address
`10.0.0.16 = 167772176`), instantiating the external enumeration collaborator. -/
def enum28 : List (List Char) := specEnum 167772176 28

/-- C1 counterexample: on the CIDR `10.0.0.16/28` (14 enumerated addresses) with block
size 2, the claimed block count `round(addressCount / blockSize)` is 7, but
`network.range` produces 2 blocks (of 7 addresses each). -/
theorem claim_C1_counterexample :
    (netRange 2 enum28).length = 2 ∧ jsRound enum28.length 2 = 7 ∧
      (netRange 2 enum28).length ≠ jsRound enum28.length 2 := by decide

/-- C2: concatenating the partition blocks in order, splitting each on single spaces,
yields exactly the full enumeration — no duplicate, no omission, order preserved.  The
hypotheses state that the enumeration is that of an IPv4 CIDR: non-empty, and each
address non-empty and space-free.  Determinism is immediate since `netRange` is a
function of its two arguments. -/
theorem claim_C2 (bsize : Nat) (blocks : List (List Char)) (hb : 0 < bsize)
    (hne : blocks ≠ []) (haddr : ∀ a ∈ blocks, a ≠ [] ∧ ' ' ∉ a) :
    ((netRange bsize blocks).map (fun b => b.splitOn ' ')).flatten = blocks := by
  unfold netRange
  by_cases h : 1 < rescale (jsRound blocks.length bsize)
  · simp only [h, if_true]
    unfold chunk
    rw [List.map_map]
    have hmap : ∀ c ∈ chunkSlices blocks (rescale (jsRound blocks.length bsize)),
        ((fun b => List.splitOn ' ' b) ∘ List.intercalate [' ']) c = c := by
      intro c hc
      exact List.splitOn_intercalate c ' '
        (fun a ha => (haddr a (mem_of_mem_chunkSlices _ _ c a hc ha)).2)
        (chunkGo_ne_nil _ _ _ c hc)
    rw [List.map_congr_left hmap, List.map_id']
    exact chunkGo_flatten _ _ _ (Nat.le_refl _)
  · simp only [h, if_false, List.map_cons, List.map_nil, List.flatten_cons,
      List.flatten_nil, List.append_nil]
    exact List.splitOn_intercalate blocks ' ' (fun a ha => (haddr a ha).2) hne

/-- C2 witness: the theorem applied to the enumeration of `10.0.0.16/28` with block
size 2 (which takes the chunking branch). -/
theorem claim_C2_witness :
    0 < 2 ∧ enum28 ≠ [] ∧ (∀ a ∈ enum28, a ≠ [] ∧ ' ' ∉ a) ∧
      ((netRange 2 enum28).map (fun b => b.splitOn ' ')).flatten = enum28 :=
  ⟨by decide, by decide, by decide,
    claim_C2 2 enum28 (by decide) (by decide) (by decide)⟩

/-- The classification loop of `network.calculate`, characterised: pass-through entries
accumulate into `results` in order, and every IPv4-CIDR entry's partition accumulates
into `tresults` in order. -/
theorem calcStep_foldl (enum : List Char → List (List Char)) (bsize : Nat)
    (range : List (List Char)) (r : List (List Char)) (t : List (List (List Char))) :
    range.foldl (calcStep enum bsize) (r, t) =
      (r ++ range.filter entryKept,
        t ++ (range.filter entryCIDR).map (fun c => netRange bsize (enum c))) := by
  induction range generalizing r t with
  | nil => simp
  | cons x rest ih =>
      simp only [List.foldl_cons, List.filter_cons]
      cases h1 : (hostnameTest x || ipv4Test x || ipv6Test x) with
      | true =>
          have hk : entryKept x = true := by simp [entryKept, h1]
          have hc : entryCIDR x = false := by simp [entryCIDR, h1]
          simp [calcStep, h1, hk, hc, ih]
      | false =>
          cases h2 : ipv4CIDRTest x with
          | true =>
              have hk : entryKept x = false := by simp [entryKept, h1, h2]
              have hc : entryCIDR x = true := by simp [entryCIDR, h1, h2]
              simp [calcStep, h1, h2, hk, hc, ih]
          | false =>
              cases h3 : ipv4RangeTest x with
              | true =>
                  have hk : entryKept x = true := by simp [entryKept, h1, h2, h3]
                  have hc : entryCIDR x = false := by simp [entryCIDR, h1, h2]
                  simp [calcStep, h1, h2, h3, hk, hc, ih]
              | false =>
                  cases h4 : ipv6CIDRTest x with
                  | true =>
                      have hk : entryKept x = true := by simp [entryKept, h1, h2, h3, h4]
                      have hc : entryCIDR x = false := by simp [entryCIDR, h1, h2]
                      simp [calcStep, h1, h2, h3, h4, hk, hc, ih]
                  | false =>
                      have hk : entryKept x = false := by simp [entryKept, h1, h2, h3, h4]
                      have hc : entryCIDR x = false := by simp [entryCIDR, h1, h2]
                      simp [calcStep, h1, h2, h3, h4, hk, hc, ih]

/-- C3 (amended): what `network.calculate` actually emits.  Pass-through entries
(single hosts, IPv4 ranges, IPv6 CIDRs) are emitted unchanged in input order; the
partitioner runs for every IPv4 CIDR entry, but only the *first* IPv4 CIDR entry's
`TargetBlock`s reach the output — `tools.merge(results, tresults[0])` appends them
*after* all pass-through entries rather than splicing them at the entry's position,
and the partitions of all later IPv4 CIDR entries are discarded.  Invalid entries are
silently dropped. -/
theorem claim_C3 (enum : List Char → List (List Char)) (bsize : Nat)
    (range : List (List Char)) :
    calculate enum bsize range =
      range.filter entryKept ++
        (match range.filter entryCIDR with
         | [] => []
         | c :: _ => netRange bsize (enum c)) := by
  unfold calculate
  rw [calcStep_foldl]
  cases hf : range.filter entryCIDR with
  | nil => simp
  | cons c rest => simp

/-- The input range list for the C3 counterexample: two IPv4 CIDRs followed by a
hostname. -/
def cxRange : List (List Char) :=
  [(r"10.0.0.0/30").toList, (r"10.0.1.0/30").toList, (r"localhost").toList]

/-- C3 counterexample: with range `["10.0.0.0/30", "10.0.1.0/30", "localhost"]` and
block size 16, the classifier emits `["localhost", "10.0.0.1 10.0.0.2"]` — the first
CIDR's block is appended after the hostname instead of being spliced at its position,
and the second CIDR's block `"10.0.1.1 10.0.1.2"` is missing entirely, contradicting
the claim that every IPv4 CIDR entry's blocks are spliced in at that entry's position. -/
theorem claim_C3_counterexample :
    calculate specEnumMap 16 cxRange
        = [(r"localhost").toList, (r"10.0.0.1 10.0.0.2").toList] ∧
      (r"10.0.1.1 10.0.1.2").toList ∉ calculate specEnumMap 16 cxRange ∧
      calculate specEnumMap 16 cxRange
        ≠ [(r"10.0.0.1 10.0.0.2").toList, (r"10.0.1.1 10.0.1.2").toList,
            (r"localhost").toList] := by decide

/-- Prepending a common list on both sides preserves and reflects the prefix order. -/
theorem append_prefix_iff {α : Type} (a b c : List α) : a ++ b <+: a ++ c ↔ b <+: c := by
  induction a with
  | nil => simp
  | cons x xs ih => simp [List.cons_prefix_cons, ih]

/-- The command string, decomposed into the template segments of `tools.command`. -/
theorem command_decomp (o : Opts) (block : List Char) :
    command o block =
      o.nmap ++ (if o.udp then (r" -sU").toList else [' ']) ++ [' ']
        ++ (r"--host-timeout=").toList ++ Nat.toDigits 10 o.timeout ++ (r"s ").toList
        ++ List.intercalate [' '] o.flags
        ++ (if ipv6Test block then (r" -6 ").toList else [' '])
        ++ (if o.ports ≠ [] then (r"-p").toList ++ o.ports ++ [' '] else [])
        ++ block := by
  unfold command
  by_cases hp : o.ports ≠ [] <;> by_cases hu : o.udp <;>
    by_cases h6 : ipv6Test block <;> simp [hp, hu, h6, List.append_assoc]

/-- C5: structure of the built command line.  The command starts with the executable
followed by ` -sU` exactly when the UDP option is set; it always carries the
`--host-timeout=<timeout>s` flag; the IPv6 flag segment ` -6 ` is present exactly when
the block matches the IPv6 address pattern (otherwise that segment is a single space);
and `-p<ports>` stands immediately before the block exactly when the port specification
is non-empty, the block being the final token in either case. -/
theorem claim_C5 (o : Opts) (block : List Char) :
    ((o.nmap ++ (r" -sU").toList) <+: command o block ↔ o.udp = true)
      ∧ ((r"--host-timeout=").toList ++ Nat.toDigits 10 o.timeout ++ ['s'])
          <:+: command o block
      ∧ command o block =
          o.nmap ++ (if o.udp then (r" -sU").toList else [' ']) ++ [' ']
            ++ (r"--host-timeout=").toList ++ Nat.toDigits 10 o.timeout ++ (r"s ").toList
            ++ List.intercalate [' '] o.flags
            ++ (if ipv6Test block then (r" -6 ").toList else [' '])
            ++ (if o.ports ≠ [] then (r"-p").toList ++ o.ports ++ [' '] else [])
            ++ block := by
  refine ⟨?_, ?_, command_decomp o block⟩
  · rw [command_decomp o block]
    cases hu : o.udp with
    | true =>
        simp only [if_true]
        constructor
        · intro _; trivial
        · intro _
          refine ⟨[' '] ++ (r"--host-timeout=").toList ++ Nat.toDigits 10 o.timeout
              ++ (r"s ").toList ++ List.intercalate [' '] o.flags
              ++ (if ipv6Test block then (r" -6 ").toList else [' '])
              ++ (if o.ports ≠ [] then (r"-p").toList ++ o.ports ++ [' '] else [])
              ++ block, ?_⟩
          simp [List.append_assoc]
    | false =>
        simp only [Bool.false_eq_true, if_false]
        constructor
        · intro h
          exfalso
          rcases h with ⟨t, ht⟩
          rw [show (r" -sU").toList = ' ' :: '-' :: 's' :: 'U' :: [] from rfl] at ht
          simp only [List.append_assoc, List.cons_append, List.nil_append,
            List.singleton_append] at ht
          have h2 := List.append_cancel_left ht
          injection h2 with _ h3
          injection h3 with h4 _
          exact absurd h4 (by decide)
        · intro h; cases h
  · rw [command_decomp o block]
    refine ⟨o.nmap ++ (if o.udp then (r" -sU").toList else [' ']) ++ [' '],
      [' '] ++ List.intercalate [' '] o.flags
        ++ (if ipv6Test block then (r" -6 ").toList else [' '])
        ++ (if o.ports ≠ [] then (r"-p").toList ++ o.ports ++ [' '] else [])
        ++ block, ?_⟩
    rw [show (r"s ").toList = ['s'] ++ [' '] from rfl]
    simp [List.append_assoc]

/-- A well-formed options object: valid range, ports and block size. -/
def oValid : Opts := ⟨(r"nmap").toList, (r"1-1024").toList, [(r"localhost").toList],
  120, 16, false, [(r"-T4").toList, (r"-oX -").toList], false⟩

/-- The same options with a block size of 129, above the cap. -/
def o129 : Opts := ⟨(r"nmap").toList, (r"1-1024").toList, [(r"localhost").toList],
  120, 129, false, [(r"-T4").toList, (r"-oX -").toList], false⟩

/-- C7: a block size above 128 always makes validation fail with the block-size error in
the collected list, whatever the other options and the binary-existence result; a block
size of at most 128 never produces that error. -/
theorem claim_C7 (ex : Bool) (o : Opts) :
    (128 < o.blocksize →
        ∃ errs, initResult ex o = .error errs ∧ VError.blockErr ∈ errs)
      ∧ (o.blocksize ≤ 128 → (initErrors ex o).count VError.blockErr = 0) := by
  constructor
  · intro h
    have hmem : VError.blockErr ∈ initErrors ex o := by
      unfold initErrors
      simp [h]
    have hne : initErrors ex o ≠ [] := by
      intro he
      rw [he] at hmem
      exact absurd hmem (List.not_mem_nil _)
    refine ⟨initErrors ex o, ?_, hmem⟩
    unfold initResult
    rw [if_neg hne]
  · intro h
    rw [List.count_eq_zero]
    unfold initErrors
    intro hmem
    simp only [List.mem_append] at hmem
    rcases hmem with (h1 | h2) | h3
    · rw [if_neg (by omega)] at h1
      exact absurd h1 (List.not_mem_nil _)
    · split at h2
      · exact absurd h2 (List.not_mem_nil _)
      · rcases List.mem_append.mp h2 with h4 | h5
        · split at h4 <;> simp_all
        · rcases List.mem_filterMap.mp h5 with ⟨v, _, hv⟩
          split at hv <;> simp_all
    · split at h3
      · split at h3 <;> simp_all
      · exact absurd h3 (List.not_mem_nil _)

/-- C7 witness: the theorem applied at block size 129 (failure) and at the valid options
(no block-size error). -/
theorem claim_C7_witness :
    (∃ errs, initResult true o129 = .error errs ∧ VError.blockErr ∈ errs) ∧
      (initErrors true oValid).count VError.blockErr = 0 :=
  ⟨(claim_C7 true o129).1 (by decide), (claim_C7 true oValid).2 (by decide)⟩

/-- C4 (amended): outside discover mode, with a compliant block size and port
specification and a non-empty range list, the collected error list is exactly one
host-validation error per invalid range entry, in input order — every entry is
processed, no early abort — and validation succeeds if and only if *all* entries are
valid.  In particular a range list mixing valid and invalid entries fails validation
(rather than succeeding with the valid entries only, as claimed). -/
theorem claim_C4 (ex : Bool) (o : Opts) (hd : o.discoverMode = false)
    (hb : o.blocksize ≤ 128) (hp : o.ports = [] ∨ portsTest o.ports = true)
    (hr : o.range ≠ []) :
    (initResult ex o = .ok true ↔ ∀ v ∈ o.range, verifyOk v = true)
      ∧ initErrors ex o =
          o.range.filterMap
            (fun v => if verifyOk v then none else some (VError.hostErr v)) := by
  have hE : initErrors ex o = o.range.filterMap
      (fun v => if verifyOk v then none else some (VError.hostErr v)) := by
    unfold initErrors
    rw [if_neg (by omega), hd]
    simp only [Bool.false_eq_true, if_false]
    rw [if_neg (by simpa using hr)]
    rcases hp with hp | hp
    · simp [hp]
    · simp [hp]
  refine ⟨?_, hE⟩
  have h2 : (initErrors ex o = []) ↔ ∀ v ∈ o.range, verifyOk v = true := by
    rw [hE, List.filterMap_eq_nil_iff]
    constructor
    · intro h v hv
      have hx := h v hv
      by_cases hok : verifyOk v
      · exact hok
      · rw [if_neg hok] at hx
        exact Option.noConfusion hx
    · intro h v hv
      rw [if_pos (h v hv)]
  unfold initResult
  by_cases hnil : initErrors ex o = []
  · rw [if_pos hnil]
    exact ⟨fun _ => h2.mp hnil, fun _ => rfl⟩
  · rw [if_neg hnil]
    exact ⟨fun h => Except.noConfusion h, fun h => absurd (h2.mpr h) hnil⟩

/-- Decidable equality for `Except` results, used to evaluate `initResult` on concrete
options. -/
instance {e a : Type} [DecidableEq e] [DecidableEq a] : DecidableEq (Except e a) :=
  fun x y =>
  match x, y with
  | .ok u, .ok v =>
      if h : u = v then .isTrue (by rw [h]) else .isFalse (fun he => h (Except.ok.inj he))
  | .error u, .error v =>
      if h : u = v then .isTrue (by rw [h])
      else .isFalse (fun he => h (Except.error.inj he))
  | .ok _, .error _ => .isFalse (fun he => Except.noConfusion he)
  | .error _, .ok _ => .isFalse (fun he => Except.noConfusion he)

/-- Options whose range mixes a valid entry (`localhost`) with an invalid one. -/
def oMixed : Opts := ⟨(r"nmap").toList, (r"1-1024").toList,
  [(r"localhost").toList, (r"%%%").toList], 120, 16, false,
  [(r"-T4").toList, (r"-oX -").toList], false⟩

/-- C4 counterexample: a range list with one valid entry among invalid ones does *not*
succeed — `validation.init` reports the collected host error and the call fails. -/
theorem claim_C4_counterexample :
    initResult true oMixed = .error [VError.hostErr ((r"%%%").toList)] ∧
      initResult true oMixed ≠ .ok true := by decide

/-- C4 witness: the amended theorem applied to the mixed options object. -/
theorem claim_C4_witness :
    (initResult true oMixed = .ok true ↔ ∀ v ∈ oMixed.range, verifyOk v = true)
      ∧ initErrors true oMixed =
          oMixed.range.filterMap
            (fun v => if verifyOk v then none else some (VError.hostErr v)) :=
  claim_C4 true oMixed (by decide) (by decide) (Or.inr (by decide)) (by decide)

/-- The port-token alternation only accepts strings of one to five characters. -/
theorem isPortNum_length (l : List Char) (h : isPortNum l = true) :
    1 ≤ l.length ∧ l.length ≤ 5 := by
  rcases l with _ | ⟨a, _ | ⟨b, _ | ⟨c, _ | ⟨d, _ | ⟨e, _ | ⟨f, rest⟩⟩⟩⟩⟩⟩
  · simp [isPortNum] at h
  · simp
  · simp
  · simp
  · simp
  · simp
  · exfalso
    simp only [isPortNum, List.length_cons, Bool.or_eq_true, Bool.and_eq_true,
      decide_eq_true_eq] at h
    rcases h with ⟨⟨_, hlen⟩, _⟩ | h2
    · omega
    · exact Bool.noConfusion h2

/-- The declarative port-sequence grammar: one or more tokens accepted by the
port-number alternation, separated by single `-` or `,` characters. -/
inductive PortTokens : List Char → Prop where
  | single (l : List Char) : isPortNum l = true → PortTokens l
  | append (tok : List Char) (sep : Char) (rest : List Char) :
      isPortNum tok = true → (sep = '-' ∨ sep = ',') → PortTokens rest →
      PortTokens (tok ++ sep :: rest)

/-- The language of the whole `validation.net.ports` pattern: a port sequence,
optionally preceded by one leading `-` or `,` (the leading separator is admitted by the
`(?:^|[-,])` group of the first repetition). -/
def PortSpecOK (l : List Char) : Prop :=
  PortTokens l ∨
    match l with
    | c :: rest => (c = '-' ∨ c = ',') ∧ PortTokens rest
    | [] => False

/-- The empty string is not a port sequence. -/
theorem portTokens_ne_nil (l : List Char) (h : PortTokens l) : l ≠ [] := by
  cases h with
  | single l hl =>
      intro he
      subst he
      simp [isPortNum] at hl
  | append tok sep rest htok hsep hrest => simp

/-- The backtracking matcher agrees with the declarative grammar, for any fuel
dominating the string length. -/
theorem portsGo_iff (fuel : Nat) : ∀ l : List Char, l.length ≤ fuel →
    (portsGo fuel l = true ↔ PortTokens l) := by
  induction fuel with
  | zero =>
      intro l hl
      have : l = [] := List.eq_nil_of_length_eq_zero (by omega)
      subst this
      simp only [portsGo]
      exact ⟨fun h => Bool.noConfusion h, fun h => absurd rfl (portTokens_ne_nil [] h)⟩
  | succ f ih =>
      intro l hl
      constructor
      · intro h
        simp only [portsGo, List.any_eq_true, Bool.and_eq_true] at h
        rcases h with ⟨i, hi, htok, hrest⟩
        cases hd : l.drop (i + 1) with
        | nil =>
            have hlen : l.length ≤ i + 1 := List.drop_eq_nil_iff.mp hd
            have htake : l.take (i + 1) = l := List.take_of_length_le hlen
            rw [htake] at htok
            exact .single l htok
        | cons c rest =>
            rw [hd] at hrest
            simp only [Bool.and_eq_true, Bool.or_eq_true, decide_eq_true_eq] at hrest
            rcases hrest with ⟨hsep, hrec⟩
            have hrlen : rest.length ≤ f := by
              have := congrArg List.length hd
              simp only [List.length_drop, List.length_cons] at this
              omega
            have hrtokens : PortTokens rest := (ih rest hrlen).mp hrec
            have hsplit : l = l.take (i + 1) ++ c :: rest := by
              rw [← hd, List.take_append_drop]
            rw [hsplit]
            exact .append _ c _ htok hsep hrtokens
      · intro ht
        cases ht with
        | single l hl2 =>
            rcases isPortNum_length l hl2 with ⟨h1, h5⟩
            simp only [portsGo, List.any_eq_true]
            refine ⟨l.length - 1, List.mem_range.mpr (by omega), ?_⟩
            have hn : l.length - 1 + 1 = l.length := by omega
            rw [hn, List.take_length, List.drop_length]
            simp [hl2]
        | append tok sep rest htok hsep hrest =>
            rcases isPortNum_length tok htok with ⟨h1, h5⟩
            simp only [portsGo, List.any_eq_true]
            refine ⟨tok.length - 1, List.mem_range.mpr (by omega), ?_⟩
            have hn : tok.length - 1 + 1 = tok.length := by omega
            have hrlen : rest.length ≤ f := by
              simp only [List.length_append, List.length_cons] at hl
              omega
            have hsep2 : (sep = '-' || sep = ',') = true := by
              rcases hsep with h | h <;> simp [h]
            rw [hn, List.take_left, List.drop_left]
            simp [htok, hsep2, (ih rest hrlen).mpr hrest]

/-- The source matcher for the whole pattern agrees with its declarative language. -/
theorem portsTest_iff (l : List Char) : portsTest l = true ↔ PortSpecOK l := by
  have hm : ∀ x : List Char, portsMatch x = true ↔ PortTokens x := fun x =>
    portsGo_iff (x.length + 1) x (by omega)
  cases l with
  | nil =>
      constructor
      · intro h
        simp only [portsTest, Bool.or_eq_true] at h
        rcases h with h | h
        · exact Or.inl ((hm []).mp h)
        · exact Bool.noConfusion h
      · intro h
        rcases h with h | h
        · exact absurd rfl (portTokens_ne_nil [] h)
        · exact h.elim
  | cons c rest =>
      constructor
      · intro h
        simp only [portsTest, Bool.or_eq_true, Bool.and_eq_true,
          decide_eq_true_eq] at h
        rcases h with h | ⟨hsep, hrest⟩
        · exact Or.inl ((hm _).mp h)
        · exact Or.inr ⟨hsep, (hm rest).mp hrest⟩
      · intro h
        simp only [portsTest, Bool.or_eq_true, Bool.and_eq_true, decide_eq_true_eq]
        rcases h with h | ⟨hsep, hrest⟩
        · exact Or.inl ((hm _).mpr h)
        · exact Or.inr ⟨hsep, (hm rest).mpr hrest⟩

/-- Where the port error can come from: `validation.init` collects `portErr` exactly
when a non-empty port specification fails the ports pattern. -/
theorem portErr_mem_initErrors (ex : Bool) (o : Opts) :
    VError.portErr ∈ initErrors ex o ↔ o.ports ≠ [] ∧ portsTest o.ports = false := by
  unfold initErrors
  constructor
  · intro hmem
    simp only [List.mem_append] at hmem
    rcases hmem with (h1 | h2) | h3
    · split at h1 <;> simp_all
    · split at h2
      · simp_all
      · rcases List.mem_append.mp h2 with h4 | h5
        · split at h4 <;> simp_all
        · rcases List.mem_filterMap.mp h5 with ⟨v, _, hv⟩
          split at hv <;> simp_all
    · by_cases hcond : o.ports ≠ []
      · rw [if_pos hcond] at h3
        by_cases htest : portsTest o.ports = true
        · rw [if_pos htest] at h3
          exact absurd h3 (List.not_mem_nil _)
        · exact ⟨hcond, by simpa using htest⟩
      · rw [if_neg hcond] at h3
        exact absurd h3 (List.not_mem_nil _)
  · intro ⟨hne, hfail⟩
    simp only [List.mem_append]
    refine Or.inr ?_
    rw [if_pos hne, if_neg (by simp [hfail])]
    simp

/-- C8 (amended): for a non-empty port specification, validation collects a
`PortSpecError` exactly when the string is outside the language of the ports pattern —
which is an optional *leading* `-` or `,` followed by port numbers (1 to 65535, decimal
with no leading zero, per the token alternation) separated by single `-` or `,`
characters.  In particular a leading separator is accepted, contrary to the original
claim; port `0` or ports above 65535 remain rejected. -/
theorem claim_C8 (ex : Bool) (o : Opts) (hp : o.ports ≠ []) :
    VError.portErr ∈ initErrors ex o ↔ ¬ PortSpecOK o.ports := by
  rw [portErr_mem_initErrors]
  constructor
  · intro ⟨_, hfail⟩ hok
    rw [(portsTest_iff o.ports).mpr hok] at hfail
    exact Bool.noConfusion hfail
  · intro hbad
    refine ⟨hp, ?_⟩
    rcases Bool.eq_false_or_eq_true (portsTest o.ports) with h | h
    · exact absurd ((portsTest_iff o.ports).mp h) hbad
    · exact h

/-- Valid options except for the port specification `,80`, which starts with a
separator. -/
def oLead : Opts := ⟨(r"nmap").toList, (r",80").toList, [(r"localhost").toList],
  120, 16, false, [(r"-T4").toList, (r"-oX -").toList], false⟩

/-- C8 counterexample: the specification `,80` has a leading separator — malformed per
the claimed grammar — yet the ports pattern accepts it and validation succeeds instead
of failing with a `PortSpecError`. -/
theorem claim_C8_counterexample :
    portsTest ((r",80").toList) = true ∧ initResult true oLead = .ok true := by decide

/-- C8 witness: the amended theorem applied to the valid options (ports `1-1024`). -/
theorem claim_C8_witness :
    oValid.ports ≠ [] ∧
      (VError.portErr ∈ initErrors true oValid ↔ ¬ PortSpecOK oValid.ports) :=
  ⟨by decide, claim_C8 true oValid (by decide)⟩

/-- C10: the binary-reachability check can never fail validation.  Whatever boolean the
external existence collaborator returns and whatever the options, the collected error
list never contains the binary-path error — `validation.exists` returns a boolean and
ignores the callback `init` hands it, so the `pathErr` push (and the `fs.access`
fallback) is dead code — and in particular validation of otherwise-valid options
succeeds even when the executable is unreachable (`existsResult = false`). -/
theorem claim_C10 :
    (∀ (ex : Bool) (o : Opts), (initErrors ex o).count VError.pathErr = 0) ∧
      initResult false oValid = .ok true := by
  constructor
  · intro ex o
    rw [List.count_eq_zero]
    intro hmem
    unfold initErrors at hmem
    simp only [List.mem_append] at hmem
    rcases hmem with (h1 | h2) | h3
    · split at h1 <;> simp_all
    · split at h2
      · simp_all
      · rcases List.mem_append.mp h2 with h4 | h5
        · split at h4 <;> simp_all
        · rcases List.mem_filterMap.mp h5 with ⟨v, _, hv⟩
          split at hv <;> simp_all
    · split at h3
      · split at h3 <;> simp_all
      · simp_all
  · decide

/-- C9: when a unit's process reports no error and its output stream ends with zero
captured chunks, the completion callback is never invoked — the `end` handler only
reports under `if (report.length > 0)` — so the unit silently never settles instead of
failing with an empty-output error; with at least one chunk it reports the joined
output, and a process error reaches the callback. -/
theorem claim_C9 :
    unitRun false [] = UnitResult.noCallback ∧
      unitRun false [(r"<xml/>").toList] = UnitResult.callbackReport ((r"<xml/>").toList) ∧
      unitRun true [] = UnitResult.callbackErr := by decide

/-- C6 (spec-modelled): in every state the bounded pool can reach from `n` pending
units, at most `k` units are running — the concurrency ceiling holds at every instant —
and whenever work is pending with spare capacity a start transition is available, so a
queued unit can start as soon as one finishes. -/
theorem claim_C6 (k n : Nat) (s : PoolState) (h : PoolReach k ⟨n, 0, 0⟩ s) :
    s.running ≤ k ∧ (0 < s.pending → s.running < k → ∃ t, PoolStep k s t) := by
  have hrun : s.running ≤ k := by
    induction h with
    | refl => exact Nat.zero_le k
    | tail t u hreach hstep ih =>
        cases hstep with
        | start h1 h2 => simpa using h1
        | finish h1 => simp; omega
  exact ⟨hrun, fun hp hr => ⟨_, PoolStep.start s hr hp⟩⟩

/-- C6 witness: with limit 2 and 3 pending units, the state after one start transition
is reachable; the theorem yields the ceiling and the availability of a next start. -/
theorem claim_C6_witness :
    (⟨2, 1, 0⟩ : PoolState).running ≤ 2 ∧
      (0 < (⟨2, 1, 0⟩ : PoolState).pending → (⟨2, 1, 0⟩ : PoolState).running < 2 →
        ∃ t, PoolStep 2 ⟨2, 1, 0⟩ t) :=
  claim_C6 2 3 ⟨2, 1, 0⟩
    (PoolReach.tail _ _ _ (PoolReach.refl _)
      (PoolStep.start ⟨3, 0, 0⟩ (by decide) (by decide)))
